import Mathlib

/-!
Verification of the documentation build-orchestration scripts in this
repository. The repository holds four near-duplicate revisions of one
script:

* variant A — the first script in `docs/scripts/generate-docs.ts`
  (label "latest", requires `--branch`, aborts when no tag matches);
* variant B — the second script in `docs/scripts/generate-docs.ts`
  (label "current", no `--branch`, falls back to the current workspace
  when no tag matches, and — notably — writes only the matched tags to
  the manifest when some tag matches);
* variant C — the first unnamed revision (label "current", aborts when
  no tag matches, always builds the current workspace);
* variant D — the second unnamed revision (label "current", requires
  `--branch`, aborts when no tag matches, branch-aware current build).

The embedding below translates, from the TypeScript source:

* `resolveTagsFromSpec` (identical in all four revisions), together with
  a model of the `semver` npm package functions it calls
  (`semver.valid`, `semver.satisfies` with `includePrerelease`, and
  `semver.rcompare`); the JavaScript `Array.prototype.sort` (a stable
  sort driven by a comparator) is modelled by `List.insertionSort`,
  which is stable and agrees with every stable comparison sort on a
  lawful comparator;
* `buildRef` (called `buildFromRef` in variant B) as a state machine
  over an oracle of external-command outcomes, tracking whether the
  temporary worktree checkout and its `mkdtemp` parent directory exist;
* `buildDocs` as a state machine tracking the output directory contents;
* the four `main` entry points, at the granularity of which builds are
  attempted, the exit code, and the written versions manifest.
-/

namespace DocsGen

/-! ### Comparator groundwork

`Ordering`-valued comparators and the laws needed to reason about
lexicographic composition and comparator-driven sorting. -/

/-- Numeric comparison as an `Ordering`, modelling JavaScript numeric
comparison of version components. -/
def natCmp (a b : Nat) : Ordering :=
  if a < b then .lt else if b < a then .gt else .eq

/-- The laws a comparator must satisfy for lexicographic composition and
sorting: orientation (swap), transitivity of strict `lt`, and that
`eq` results are substitutive on the left argument. -/
structure CmpLaws {α : Type _} (f : α → α → Ordering) : Prop where
  symm : ∀ a b, (f a b).swap = f b a
  lt_trans : ∀ {a b c}, f a b = .lt → f b c = .lt → f a c = .lt
  eq_subst : ∀ {a b}, f a b = .eq → ∀ c, f a c = f b c

theorem natCmp_eq_lt {a b : Nat} : natCmp a b = .lt ↔ a < b := by
  unfold natCmp
  split_ifs with h1 h2 <;> simp <;> omega

theorem natCmp_eq_gt {a b : Nat} : natCmp a b = .gt ↔ b < a := by
  unfold natCmp
  split_ifs with h1 h2 <;> simp <;> omega

theorem natCmp_eq_eq {a b : Nat} : natCmp a b = .eq ↔ a = b := by
  unfold natCmp
  split_ifs with h1 h2 <;> simp <;> omega

theorem CmpLaws.natCmp_laws : CmpLaws natCmp := by
  constructor
  · intro a b
    unfold natCmp
    rcases Nat.lt_trichotomy a b with h | h | h
    · simp [h, Nat.lt_asymm h, Ordering.swap]
    · simp [h, Nat.lt_irrefl, Ordering.swap]
    · simp [h, Nat.lt_asymm h, Nat.not_lt.mpr (Nat.le_of_lt h), Ordering.swap]
  · intro a b c hab hbc
    rw [natCmp_eq_lt] at *
    omega
  · intro a b hab c
    rw [natCmp_eq_eq] at hab
    rw [hab]

theorem CmpLaws.eq_refl {α : Type _} {f : α → α → Ordering} (h : CmpLaws f)
    (a : α) : f a a = .eq := by
  have hs := h.symm a a
  cases hfa : f a a with
  | lt => rw [hfa] at hs; simp [Ordering.swap] at hs
  | eq => rfl
  | gt => rw [hfa] at hs; simp [Ordering.swap] at hs

theorem CmpLaws.lt_of_swap_gt {α : Type _} {f : α → α → Ordering} (h : CmpLaws f)
    {a b : α} (hab : f a b = .gt) : f b a = .lt := by
  have := h.symm a b
  rw [hab] at this
  simpa [Ordering.swap] using this.symm

theorem CmpLaws.gt_of_swap_lt {α : Type _} {f : α → α → Ordering} (h : CmpLaws f)
    {a b : α} (hab : f a b = .lt) : f b a = .gt := by
  have := h.symm a b
  rw [hab] at this
  simpa [Ordering.swap] using this.symm

theorem CmpLaws.eq_symm {α : Type _} {f : α → α → Ordering} (h : CmpLaws f)
    {a b : α} (hab : f a b = .eq) : f b a = .eq := by
  have := h.symm a b
  rw [hab] at this
  simpa [Ordering.swap] using this.symm

/-- From `f a b = .lt` and `f b c = .eq`, conclude `f a c = .lt`. -/
theorem CmpLaws.lt_of_lt_of_eq {α : Type _} {f : α → α → Ordering} (h : CmpLaws f)
    {a b c : α} (h1 : f a b = .lt) (h2 : f b c = .eq) : f a c = .lt := by
  have hsub : f b a = f c a := h.eq_subst h2 a
  have hba : f b a = .gt := h.gt_of_swap_lt h1
  exact h.lt_of_swap_gt (hsub ▸ hba)

/-- Transitivity of the non-strict relation `f a b ≠ .gt`. -/
theorem CmpLaws.le_trans {α : Type _} {f : α → α → Ordering} (h : CmpLaws f)
    {a b c : α} (hab : f a b ≠ .gt) (hbc : f b c ≠ .gt) : f a c ≠ .gt := by
  cases h1 : f a b with
  | gt => exact absurd h1 hab
  | lt =>
    cases h2 : f b c with
    | gt => exact absurd h2 hbc
    | lt => simp [h.lt_trans h1 h2]
    | eq => simp [h.lt_of_lt_of_eq h1 h2]
  | eq =>
    rw [h.eq_subst h1 c]
    exact hbc

/-- Totality of the non-strict relation `f a b ≠ .gt`. -/
theorem CmpLaws.le_total {α : Type _} {f : α → α → Ordering} (h : CmpLaws f)
    (a b : α) : f a b ≠ .gt ∨ f b a ≠ .gt := by
  cases hab : f a b with
  | lt => exact Or.inl (by simp)
  | eq => exact Or.inl (by simp)
  | gt => exact Or.inr (by simp [h.lt_of_swap_gt hab])

theorem then_eq_lt {o₁ o₂ : Ordering} :
    o₁.then o₂ = .lt ↔ o₁ = .lt ∨ (o₁ = .eq ∧ o₂ = .lt) := by
  cases o₁ <;> simp [Ordering.then]

theorem then_eq_eq {o₁ o₂ : Ordering} :
    o₁.then o₂ = .eq ↔ o₁ = .eq ∧ o₂ = .eq := by
  cases o₁ <;> simp [Ordering.then]

theorem then_eq_gt {o₁ o₂ : Ordering} :
    o₁.then o₂ = .gt ↔ o₁ = .gt ∨ (o₁ = .eq ∧ o₂ = .gt) := by
  cases o₁ <;> simp [Ordering.then]

theorem then_swap {o₁ o₂ : Ordering} :
    (o₁.then o₂).swap = o₁.swap.then o₂.swap := by
  cases o₁ <;> cases o₂ <;> rfl

/-- Lexicographic composition of two comparators via `Ordering.then`. -/
theorem CmpLaws.lex {α : Type _} {f g : α → α → Ordering}
    (hf : CmpLaws f) (hg : CmpLaws g) :
    CmpLaws (fun a b => (f a b).then (g a b)) := by
  constructor
  · intro a b
    simp only [then_swap, hf.symm, hg.symm]
  · intro a b c hab hbc
    simp only [then_eq_lt] at hab hbc ⊢
    rcases hab with h1 | ⟨h1, h1g⟩ <;> rcases hbc with h2 | ⟨h2, h2g⟩
    · exact Or.inl (hf.lt_trans h1 h2)
    · exact Or.inl (hf.lt_of_lt_of_eq h1 h2)
    · refine Or.inl ?_
      rw [hf.eq_subst h1 c]
      exact h2
    · refine Or.inr ⟨?_, hg.lt_trans h1g h2g⟩
      rw [hf.eq_subst h1 c]
      exact h2
  · intro a b hab c
    simp only [then_eq_eq] at hab
    simp only [hf.eq_subst hab.1 c, hg.eq_subst hab.2 c]

/-- Comparison of characters by code unit, modelling JavaScript string
comparison (prerelease identifiers are ASCII, for which UTF-16 code
units and Unicode code points agree). -/
def charCmp (a b : Char) : Ordering := natCmp a.toNat b.toNat

theorem CmpLaws.charCmp_laws : CmpLaws charCmp := by
  constructor
  · intro a b
    exact CmpLaws.natCmp_laws.symm a.toNat b.toNat
  · intro a b c hab hbc
    exact CmpLaws.natCmp_laws.lt_trans hab hbc
  · intro a b hab c
    exact CmpLaws.natCmp_laws.eq_subst hab c.toNat

/-- Lexicographic comparison of lists by a component comparator: the
empty list precedes any non-empty list (node-semver: a prerelease list
that is a strict prefix of another compares smaller). -/
def listCmp {α : Type _} (f : α → α → Ordering) : List α → List α → Ordering
  | [], [] => .eq
  | [], _ :: _ => .lt
  | _ :: _, [] => .gt
  | a :: as, b :: bs => (f a b).then (listCmp f as bs)

theorem listCmp_symm {α : Type _} {f : α → α → Ordering} (hf : CmpLaws f) :
    ∀ a b : List α, (listCmp f a b).swap = listCmp f b a := by
  intro a
  induction a with
  | nil => intro b; cases b <;> rfl
  | cons x xs ih =>
    intro b
    cases b with
    | nil => rfl
    | cons y ys =>
      simp only [listCmp, then_swap, hf.symm, ih]

theorem listCmp_lt_trans {α : Type _} {f : α → α → Ordering} (hf : CmpLaws f) :
    ∀ a b c : List α, listCmp f a b = .lt → listCmp f b c = .lt →
      listCmp f a c = .lt := by
  intro a
  induction a with
  | nil =>
    intro b c hab hbc
    cases b with
    | nil => exact hbc
    | cons y ys =>
      cases c with
      | nil => simp [listCmp] at hbc
      | cons z zs => simp [listCmp]
  | cons x xs ih =>
    intro b c hab hbc
    cases b with
    | nil => simp [listCmp] at hab
    | cons y ys =>
      cases c with
      | nil => simp [listCmp] at hbc
      | cons z zs =>
        simp only [listCmp, then_eq_lt] at hab hbc ⊢
        rcases hab with h1 | ⟨h1, h1t⟩ <;> rcases hbc with h2 | ⟨h2, h2t⟩
        · exact Or.inl (hf.lt_trans h1 h2)
        · exact Or.inl (hf.lt_of_lt_of_eq h1 h2)
        · refine Or.inl ?_
          rw [hf.eq_subst h1 z]
          exact h2
        · refine Or.inr ⟨?_, ih ys zs h1t h2t⟩
          rw [hf.eq_subst h1 z]
          exact h2

theorem listCmp_eq_subst {α : Type _} {f : α → α → Ordering} (hf : CmpLaws f) :
    ∀ a b : List α, listCmp f a b = .eq → ∀ c, listCmp f a c = listCmp f b c := by
  intro a
  induction a with
  | nil =>
    intro b hab c
    cases b with
    | nil => rfl
    | cons y ys => simp [listCmp] at hab
  | cons x xs ih =>
    intro b hab c
    cases b with
    | nil => simp [listCmp] at hab
    | cons y ys =>
      simp only [listCmp, then_eq_eq] at hab
      cases c with
      | nil => rfl
      | cons z zs =>
        simp only [listCmp]
        rw [hf.eq_subst hab.1 z, ih ys hab.2 zs]

theorem CmpLaws.listCmp_laws {α : Type _} {f : α → α → Ordering}
    (hf : CmpLaws f) : CmpLaws (listCmp f) :=
  ⟨listCmp_symm hf, fun {a b c} => listCmp_lt_trans hf a b c,
    fun {a b} h c => listCmp_eq_subst hf a b h c⟩

/-! ### Model of the `semver` npm package

The scripts call `semver.valid`, `semver.satisfies(tag, token,
{ includePrerelease: true })` and `semver.rcompare` from the `semver`
npm package (an external collaborator of this repository). The model
below follows that package's documented behavior: strict parsing of
`v? major.minor.patch (-prerelease)? (+build)?` with no leading zeros
on numeric identifiers, precedence comparison that orders prerelease
identifiers numerically/lexically and ignores build metadata, and range
satisfaction over the primitive comparator grammar (`>=`, `<=`, `>`,
`<`, `=`, bare version, with `||` alternatives) — the fragment of the
range language the scripts and the specification exercise. The
package's input-length and MAX_SAFE_INTEGER caps are not modelled
(numbers are unbounded `Nat`s). -/

/-- A prerelease identifier: numeric identifiers compare numerically and
before any alphanumeric identifier. -/
inductive PreId where
  | num : Nat → PreId
  | str : String → PreId
deriving DecidableEq, Repr

/-- A parsed semantic version. -/
structure SemVer where
  major : Nat
  minor : Nat
  patch : Nat
  pre : List PreId
  build : List String
deriving DecidableEq, Repr

/-- Whitespace characters trimmed by the model of JavaScript trim. -/
def isWsChar (c : Char) : Bool := c = ' ' || c = '\t' || c = '\n' || c = '\r'

/-- Trim whitespace from both ends of a character list (JavaScript
`String.prototype.trim` restricted to common whitespace). -/
def trimChars (l : List Char) : List Char :=
  ((l.dropWhile isWsChar).reverse.dropWhile isWsChar).reverse

/-- `String.prototype.trim` on strings. -/
def strTrim (s : String) : String := String.mk (trimChars s.data)

/-- Split a character list at every occurrence of a separator character,
like JavaScript `String.prototype.split` with a one-character
separator: splitting the empty list yields one empty piece. -/
def splitOnChar (sep : Char) : List Char → List (List Char)
  | [] => [[]]
  | c :: cs =>
    match splitOnChar sep cs with
    | [] => [[c]]
    | h :: t => if c = sep then [] :: h :: t else (c :: h) :: t

/-- Split a character list at every character satisfying a predicate. -/
def splitOnPred (p : Char → Bool) : List Char → List (List Char)
  | [] => [[]]
  | c :: cs =>
    match splitOnPred p cs with
    | [] => [[c]]
    | h :: t => if p c then [] :: h :: t else (c :: h) :: t

/-- Split a character list at every occurrence of the two-character
separator `||` (node-semver's range alternative separator). -/
def splitOrOr : List Char → List (List Char)
  | [] => [[]]
  | '|' :: '|' :: cs =>
    match splitOrOr cs with
    | [] => [[], []]
    | r => [] :: r
  | c :: cs =>
    match splitOrOr cs with
    | [] => [[c]]
    | h :: t => (c :: h) :: t

/-- ASCII digit test. -/
def isDigitC (c : Char) : Bool := '0' ≤ c && c ≤ '9'

/-- A character allowed in a prerelease or build identifier:
`[0-9A-Za-z-]`. -/
def isIdChar (c : Char) : Bool :=
  isDigitC c || ('a' ≤ c && c ≤ 'z') || ('A' ≤ c && c ≤ 'Z') || c = '-'

/-- Numeric value of a digit list. -/
def natOfDigits (l : List Char) : Nat :=
  l.foldl (fun n c => n * 10 + (c.toNat - 48)) 0

/-- Parse a numeric version component: a non-empty run of digits with no
leading zero (the semver grammar `0|[1-9]\d*`). Returns the value and
the remaining input. -/
def parseNumPart (l : List Char) : Option (Nat × List Char) :=
  let ds := l.takeWhile isDigitC
  let rest := l.dropWhile isDigitC
  if ds = [] then none
  else if ds.head? = some '0' && ds.length > 1 then none
  else some (natOfDigits ds, rest)

/-- Expect a specific character at the head of the input. -/
def expectChar (c : Char) : List Char → Option (List Char)
  | [] => none
  | c' :: rest => if c' = c then some rest else none

/-- Parse one prerelease identifier: non-empty, characters from
`[0-9A-Za-z-]`; all-digit identifiers are numeric and must not have a
leading zero. -/
def parsePreId (l : List Char) : Option PreId :=
  if l = [] then none
  else if l.all isDigitC then
    if l.head? = some '0' && l.length > 1 then none
    else some (.num (natOfDigits l))
  else if l.all isIdChar then some (.str (String.mk l))
  else none

/-- Parse a dot-separated prerelease identifier list. -/
def parsePreIds (l : List Char) : Option (List PreId) :=
  (splitOnChar '.' l).mapM parsePreId

/-- Parse one build identifier: non-empty, characters from
`[0-9A-Za-z-]` (leading zeros allowed). -/
def parseBuildId (l : List Char) : Option String :=
  if l = [] then none
  else if l.all isIdChar then some (String.mk l)
  else none

/-- Parse a dot-separated build identifier list. -/
def parseBuildIds (l : List Char) : Option (List String) :=
  (splitOnChar '.' l).mapM parseBuildId

/-- Split the input at the first `+`, returning the part before it and,
when a `+` is present, the part after it. -/
def splitAtPlus : List Char → List Char × Option (List Char)
  | [] => ([], none)
  | '+' :: rest => ([], some rest)
  | c :: rest =>
    let r := splitAtPlus rest
    (c :: r.1, r.2)

/-- Parse a full semantic version from characters, after the optional
leading `v` of node-semver's strict grammar. -/
def parseSemVerCore (l : List Char) : Option SemVer := do
  let (maj, r1) ← parseNumPart l
  let r2 ← expectChar '.' r1
  let (minor, r3) ← parseNumPart r2
  let r4 ← expectChar '.' r3
  let (pat, r5) ← parseNumPart r4
  match r5 with
  | [] => some ⟨maj, minor, pat, [], []⟩
  | '-' :: rest =>
    let (preStr, buildPart) := splitAtPlus rest
    let preIds ← parsePreIds preStr
    match buildPart with
    | none => some ⟨maj, minor, pat, preIds, []⟩
    | some b => do
      let bs ← parseBuildIds b
      some ⟨maj, minor, pat, preIds, bs⟩
  | '+' :: rest => do
    let bs ← parseBuildIds rest
    some ⟨maj, minor, pat, [], bs⟩
  | _ => none

/-- Parse a semantic version from characters, allowing the optional
leading `v` (node-semver strict grammar `v?M.m.p(-pre)?(+build)?`). -/
def parseSemVerChars (l : List Char) : Option SemVer :=
  match l with
  | 'v' :: rest => parseSemVerCore rest
  | _ => parseSemVerCore l

/-- `semver.parse` on a string: node-semver trims the input before
matching its strict grammar. -/
def parseSemVer (s : String) : Option SemVer :=
  parseSemVerChars (trimChars s.data)

/-- `semver.valid(t)` is truthy exactly when `t` parses. -/
def semverValid (s : String) : Bool := (parseSemVer s).isSome

/-- Comparison of prerelease identifiers: numeric identifiers compare
numerically and sort before alphanumeric ones; alphanumeric identifiers
compare as JavaScript strings (by code unit). -/
def cmpPreId : PreId → PreId → Ordering
  | .num a, .num b => natCmp a b
  | .num _, .str _ => .lt
  | .str _, .num _ => .gt
  | .str a, .str b => listCmp charCmp a.data b.data

/-- Comparison of full prerelease lists: a release (empty list) has
higher precedence than any prerelease; two prereleases compare
identifier by identifier, a strict prefix comparing smaller. -/
def cmpPre (a b : List PreId) : Ordering :=
  match a, b with
  | [], [] => .eq
  | [], _ :: _ => .gt
  | _ :: _, [] => .lt
  | _ :: _, _ :: _ => listCmp cmpPreId a b

/-- `semver.compare`: precedence order on parsed versions — major, then
minor, then patch, then prerelease; build metadata is ignored. -/
def cmpSemVer (a b : SemVer) : Ordering :=
  (natCmp a.major b.major).then
    ((natCmp a.minor b.minor).then
      ((natCmp a.patch b.patch).then (cmpPre a.pre b.pre)))

theorem CmpLaws.cmpPreId_laws : CmpLaws cmpPreId := by
  have hc := CmpLaws.charCmp_laws.listCmp_laws
  have hn := CmpLaws.natCmp_laws
  constructor
  · intro a b
    cases a <;> cases b
    · exact hn.symm _ _
    · rfl
    · rfl
    · exact hc.symm _ _
  · intro a b c hab hbc
    cases a <;> cases b <;> cases c <;> simp_all [cmpPreId]
    · exact hn.lt_trans hab hbc
    · exact hc.lt_trans hab hbc
  · intro a b hab c
    cases a <;> cases b <;> simp_all [cmpPreId] <;> cases c <;> simp [cmpPreId]
    · exact hn.eq_subst hab _
    · exact hc.eq_subst hab _

theorem CmpLaws.cmpPre_laws : CmpLaws cmpPre := by
  have hp := CmpLaws.cmpPreId_laws.listCmp_laws
  constructor
  · intro a b
    cases a <;> cases b <;> simp [cmpPre, Ordering.swap]
    exact hp.symm _ _
  · intro a b c hab hbc
    cases a <;> cases b <;> cases c <;> simp_all [cmpPre]
    exact hp.lt_trans hab hbc
  · intro a b hab c
    cases a <;> cases b <;> simp_all [cmpPre] <;> cases c <;> simp [cmpPre]
    exact hp.eq_subst hab _

/-- A comparator built from a projection inherits the laws. -/
theorem CmpLaws.comap {α β : Type _} {f : β → β → Ordering} (hf : CmpLaws f)
    (p : α → β) : CmpLaws (fun a b => f (p a) (p b)) := by
  constructor
  · intro a b
    exact hf.symm (p a) (p b)
  · intro a b c hab hbc
    exact hf.lt_trans hab hbc
  · intro a b hab c
    exact hf.eq_subst hab (p c)

theorem CmpLaws.cmpSemVer_laws : CmpLaws cmpSemVer := by
  have h1 := CmpLaws.natCmp_laws.comap SemVer.major
  have h2 := CmpLaws.natCmp_laws.comap SemVer.minor
  have h3 := CmpLaws.natCmp_laws.comap SemVer.patch
  have h4 := CmpLaws.cmpPre_laws.comap SemVer.pre
  exact h1.lex (h2.lex (h3.lex h4))

/-! ### Range satisfaction (`semver.satisfies`) -/

/-- A primitive comparator operator. -/
inductive CmpOp where
  | eqOp | ltOp | leOp | gtOp | geOp
deriving DecidableEq, Repr

/-- A parsed comparator: an operator applied to a version. -/
structure Comparator where
  op : CmpOp
  ver : SemVer
deriving DecidableEq, Repr

/-- Parse one comparator token: an optional operator (`>=`, `<=`, `>`,
`<`, `=`, or none, meaning `=`) followed immediately by a full version
(optionally `v`-prefixed). Tokens outside this fragment of the
node-semver range grammar do not parse, and an unparseable range
satisfies nothing — mirroring `semver.satisfies`, which returns false
when range construction throws. -/
def parseComparator (tok : List Char) : Option Comparator :=
  match tok with
  | '>' :: '=' :: rest => (parseSemVerChars rest).map (⟨.geOp, ·⟩)
  | '<' :: '=' :: rest => (parseSemVerChars rest).map (⟨.leOp, ·⟩)
  | '>' :: rest => (parseSemVerChars rest).map (⟨.gtOp, ·⟩)
  | '<' :: rest => (parseSemVerChars rest).map (⟨.ltOp, ·⟩)
  | '=' :: rest => (parseSemVerChars rest).map (⟨.eqOp, ·⟩)
  | rest => (parseSemVerChars rest).map (⟨.eqOp, ·⟩)

/-- Parse a range token: `||`-separated alternatives, each a
whitespace-separated list of comparators (the empty alternative matches
everything). -/
def parseRange (tok : List Char) : Option (List (List Comparator)) :=
  (splitOrOr tok).mapM fun alt =>
    (((splitOnPred isWsChar) (trimChars alt)).filter (fun l => l ≠ [])).mapM
      parseComparator

/-- Evaluate one comparator against a version by precedence. -/
def evalComparator (v : SemVer) (c : Comparator) : Bool :=
  match c.op with
  | .eqOp => cmpSemVer v c.ver = .eq
  | .ltOp => cmpSemVer v c.ver = .lt
  | .leOp => cmpSemVer v c.ver ≠ .gt
  | .gtOp => cmpSemVer v c.ver = .gt
  | .geOp => cmpSemVer v c.ver ≠ .lt

/-- Without `includePrerelease`, a version that has a prerelease only
satisfies an alternative if some comparator in it mentions a prerelease
of the same `[major, minor, patch]` tuple. -/
def prereleaseAllowed (v : SemVer) (comps : List Comparator) : Bool :=
  v.pre = [] ||
    comps.any fun c =>
      c.ver.pre ≠ [] && c.ver.major = v.major && c.ver.minor = v.minor &&
        c.ver.patch = v.patch

/-- `semver.satisfies(version, range, { includePrerelease: incPre })`:
the version satisfies some alternative of the range; with
`includePrerelease` set, prerelease versions are compared purely by
precedence instead of being gated. Unparseable versions or ranges
satisfy nothing. -/
def satisfies (version range : String) (incPre : Bool) : Bool :=
  match parseSemVer version, parseRange range.data with
  | some v, some alts =>
    alts.any fun comps =>
      comps.all (evalComparator v) && (incPre || prereleaseAllowed v comps)
  | _, _ => false

/-! ### The version matcher (`resolveTagsFromSpec`)

Identical in all four script revisions:

```ts
function resolveTagsFromSpec(spec: string) {
  const tags = allTags().filter((t) => semver.valid(t))
  const tokens = spec.split(",").map((t) => t.trim()).filter(Boolean)
  const matched = tags.filter((tag) =>
    tokens.some((token) => semver.satisfies(tag, token, { includePrerelease: true }))
  )
  return matched.sort(semver.rcompare)
}
```

`allTags()` shells out to `git tag --list`; it is passed in here as the
list of tag lines. `Array.prototype.sort` with the consistent
comparator `semver.rcompare` is a stable sort, modelled by
`List.insertionSort` on the non-strict descending relation. -/

/-- The comma-split, trimmed, non-empty tokens of a version spec. -/
def specTokens (spec : String) : List String :=
  (((splitOnChar ',' spec.data).map trimChars).filter (fun l => l ≠ [])).map
    String.mk

/-- The parsed version of a tag, defaulting to `0.0.0` for unparseable
input; `resolveTagsFromSpec` only compares tags that passed the
`semver.valid` filter, so the default is never consulted there. -/
def parseD (t : String) : SemVer := (parseSemVer t).getD ⟨0, 0, 0, [], []⟩

/-- `semver.rcompare(a, b)`: reverse precedence comparison, used as the
sort comparator to obtain descending order. -/
def rcompareTag (a b : String) : Ordering := cmpSemVer (parseD b) (parseD a)

/-- The non-strict "sorts no later than" relation induced by
`semver.rcompare` as a JavaScript sort comparator: `a` may precede `b`
when the comparator does not return a positive value. -/
def tagDescLe (a b : String) : Prop := rcompareTag a b ≠ .gt

instance : DecidableRel tagDescLe := fun a b =>
  decidable_of_iff (rcompareTag a b ≠ .gt) Iff.rfl

instance : IsTotal String tagDescLe :=
  ⟨fun a b => CmpLaws.cmpSemVer_laws.comap parseD |>.le_total b a⟩

instance : IsTrans String tagDescLe :=
  ⟨fun a b c hab hbc =>
    (CmpLaws.cmpSemVer_laws.comap parseD).le_trans hbc hab⟩

/-- `resolveTagsFromSpec(spec)` with the `git tag --list` output passed
in as `allTags`. -/
def resolveTagsFromSpec (spec : String) (allTags : List String) : List String :=
  let tags := allTags.filter fun t => semverValid t
  let tokens := specTokens spec
  let matched := tags.filter fun tag =>
    tokens.any fun token => satisfies tag token true
  List.insertionSort tagDescLe matched

/-! ### Label sanitization

`buildRef` derives `safeLabel = labelForOutDir.replace(/[^\w.-]+/g, "_")`:
every maximal run of characters outside `[A-Za-z0-9_.-]` is replaced by
one underscore. -/

/-- A character in the safe set `[\w.-]` of the sanitizing regex
(JavaScript `\w` is `[A-Za-z0-9_]`). -/
def isSafeChar (c : Char) : Bool :=
  isDigitC c || ('a' ≤ c && c ≤ 'z') || ('A' ≤ c && c ≤ 'Z') ||
    c = '_' || c = '.' || c = '-'

/-- `replace(/[^\w.-]+/g, "_")` on a character list, with a flag
recording whether the previous character was part of an unsafe run:
each maximal run of unsafe characters contributes one underscore. -/
def sanitizeAux : Bool → List Char → List Char
  | _, [] => []
  | inRun, c :: rest =>
    if isSafeChar c then c :: sanitizeAux false rest
    else if inRun then sanitizeAux true rest
    else '_' :: sanitizeAux true rest

/-- `replace(/[^\w.-]+/g, "_")` on a character list. -/
def sanitizeChars (l : List Char) : List Char := sanitizeAux false l

/-- The `safeLabel` computed at the top of `buildRef`. -/
def sanitizeLabel (label : String) : String := String.mk (sanitizeChars label.data)

/-! ### `buildRef` as a state machine

```ts
function buildRef(ref: string, labelForOutDir: string) {
  const tmpBase = mkdtempSync(resolve(os.tmpdir(), "docs-wt-"))
  const safeLabel = labelForOutDir.replace(/[^\w.-]+/g, "_")
  const worktreePath = resolve(tmpBase, safeLabel)
  run(`git worktree add --detach ...`)       // before the try block
  try {
    ... pnpm install (if package.json present) ...
    const outDir = resolve(outputDir, labelForOutDir)
    buildDocs(sourceDir, outDir)
  } finally {
    run(`git worktree remove "${worktreePath}" --force`)   // may throw
    rmSync(tmpBase, { recursive: true, force: true })
  }
}
```

Identical (up to naming) in all four revisions. External outcomes are an
oracle; `rmSync` with `force` is modelled as succeeding. `run` throws on
a non-zero exit, so a failing `git worktree remove` inside the `finally`
throws: by JavaScript semantics that abandons the rest of the `finally`
(the `rmSync`) and replaces any exception from the `try` body. The
several distinct errors `buildDocs` can throw are collapsed into one
`docsBuild` outcome here; `buildDocsRun` below models them. -/

/-- Oracle for the external commands `buildRef` runs. -/
structure WtOracle where
  addOk : Bool
  rootPkg : Bool
  installOk : Bool
  buildOk : Bool
  removeOk : Bool
deriving DecidableEq, Repr

/-- The error `buildRef` propagates, when it throws. -/
inductive RefErr where
  | cmdWorktreeAdd
  | cmdInstall
  | docsBuild
  | cmdWorktreeRemove
deriving DecidableEq, Repr

/-- Which temporary directories exist on disk after `buildRef` exits. -/
structure WtState where
  tmpBaseExists : Bool
  worktreeExists : Bool
deriving DecidableEq, Repr

/-- The observable outcome of one `buildRef(ref, label)` call: the thrown
error if any, the final on-disk state of the temporaries, the directory
name used for the worktree checkout, and the `outputDir` subdirectory
name used for the docs output. -/
structure BuildRefOutcome where
  thrown : Option RefErr
  state : WtState
  worktreeDirName : String
  outDirLabel : String
deriving DecidableEq, Repr

/-- One run of `buildRef`, as a function of the external-command
oracle and the label. -/
def buildRefRun (o : WtOracle) (label : String) : BuildRefOutcome :=
  let safe := sanitizeLabel label
  if !o.addOk then
    { thrown := some .cmdWorktreeAdd, state := ⟨true, false⟩,
      worktreeDirName := safe, outDirLabel := label }
  else
    let bodyErr : Option RefErr :=
      if o.rootPkg && !o.installOk then some .cmdInstall
      else if !o.buildOk then some .docsBuild
      else none
    if o.removeOk then
      { thrown := bodyErr, state := ⟨false, false⟩,
        worktreeDirName := safe, outDirLabel := label }
    else
      { thrown := some .cmdWorktreeRemove, state := ⟨true, true⟩,
        worktreeDirName := safe, outDirLabel := label }

/-! ### `buildDocs` as a state machine

```ts
function buildDocs(sourceDir: string, outDir: string) {
  if (!existsSync(sourceDir)) throw ...            // workspace missing
  if (!existsSync(docsContentDir)) throw ...       // content missing
  if (!existsSync(packageJsonPath)) throw ...      // package.json missing
  resetDir(outDir)                                 // destroys prior contents
  run("pnpm run content-collections:build", ...)   // throws on non-zero exit
  if (!existsSync(ccSrc)) throw ...                // build output missing
  resetDir(ccDest); cpSync(ccSrc, ccDest, ...)
}
```

This is the `buildDocs` of the first `generate-docs.ts` script and of
both unnamed revisions (the second `generate-docs.ts` script omits the
`package.json` check but is otherwise identical). The model tracks what
happens to the output directory for the version being built. -/

/-- Oracle for `buildDocs`: which preconditions hold and whether the
external content build succeeds and produces its artifact directory. -/
structure DocsOracle where
  sourceExists : Bool
  contentExists : Bool
  packageJsonExists : Bool
  buildCmdOk : Bool
  ccSrcExists : Bool
deriving DecidableEq, Repr

/-- The state of the per-version output directory after `buildDocs`
exits: untouched prior contents, reset to an existing empty directory,
or populated with the copied artifacts. -/
inductive OutDirState where
  | priorContents
  | emptyDir
  | populated
deriving DecidableEq, Repr

/-- The error `buildDocs` throws, when it throws. -/
inductive DocsErr where
  | missingWorkspace
  | missingContent
  | missingManifest
  | cmdFailed
  | buildOutputMissing
deriving DecidableEq, Repr

/-- One run of `buildDocs`: the thrown error (if any) and the final
state of the output directory. -/
def buildDocsRun (o : DocsOracle) : Option DocsErr × OutDirState :=
  if !o.sourceExists then (some .missingWorkspace, .priorContents)
  else if !o.contentExists then (some .missingContent, .priorContents)
  else if !o.packageJsonExists then (some .missingManifest, .priorContents)
  else if !o.buildCmdOk then (some .cmdFailed, .emptyDir)
  else if !o.ccSrcExists then (some .buildOutputMissing, .emptyDir)
  else (none, .populated)

/-! ### The four `main` entry points

Each is modelled at the granularity the claims need: which version
builds are attempted and in what order, whether the versions manifest
file is written and with what contents, and the process exit code
(`main().catch(... process.exit(1))`). Per-version build outcomes come
from an oracle (`tagBuildOk` for `buildTag`, `currentBuildOk` for the
current/latest build — in the branch-aware variants the latter covers
both the `buildBranch` and the direct-`buildDocs` paths, which differ
only in which external commands run). `git` queries such as
`getCurrentBranch` are assumed to succeed. -/

/-- The invocation environment shared by the four variants. -/
structure MainEnv where
  gitTags : List String
  versionsArg : Option String
  branchArg : Option String
  onDefaultBranch : Bool
  tagBuildOk : String → Bool
  currentBuildOk : Bool

/-- The observable result of a run: the manifest written to
`app/utils/versions.ts` (if any), the process exit code, and the labels
of the builds that were started, in order. -/
structure RunResult where
  manifest : Option (List String)
  exitCode : Nat
  attempted : List String
deriving DecidableEq, Repr

/-- Variant A's `--versions` handling: `(values.versions)?.trim() ||
undefined` — absent or whitespace-only collapses to `undefined`. -/
def cliSpecA (env : MainEnv) : Option String :=
  match env.versionsArg with
  | none => none
  | some v => if strTrim v = "" then none else some (strTrim v)

/-- The `--branch` handling of variants A and D: required, trimmed,
missing or empty is an error. -/
def cliBranch (env : MainEnv) : Option String :=
  match env.branchArg with
  | none => none
  | some b => if strTrim b = "" then none else some (strTrim b)

/-- Variants B, C and D read `(values.versions)?.trim() ?? ""` and test
for non-emptiness. -/
def rawSpec (env : MainEnv) : String :=
  match env.versionsArg with
  | none => ""
  | some v => strTrim v

/-- The `for (const tag of tags) buildTag(tag)` loop: returns whether
every build succeeded together with the tags whose build was started —
the loop stops at the first failure, so nothing after it is attempted. -/
def buildTags (ok : String → Bool) : List String → Bool × List String
  | [] => (true, [])
  | t :: ts =>
    if ok t then
      let r := buildTags ok ts
      (r.1, t :: r.2)
    else (false, [t])

/-- Variant A (first `generate-docs.ts` script): requires `--branch`;
with a spec, resolves tags, aborts when none match, builds each tag,
then the `latest` build, and writes `["latest", ...tags]`. -/
def mainA (env : MainEnv) : RunResult :=
  match cliBranch env with
  | none => ⟨none, 1, []⟩
  | some _ =>
    match cliSpecA env with
    | some s =>
      let tags := resolveTagsFromSpec s env.gitTags
      if tags.isEmpty then ⟨none, 1, []⟩
      else
        let r := buildTags env.tagBuildOk tags
        if r.1 then
          if env.currentBuildOk then
            ⟨some ("latest" :: tags), 0, r.2 ++ ["latest"]⟩
          else ⟨none, 1, r.2 ++ ["latest"]⟩
        else ⟨none, 1, r.2⟩
    | none =>
      if env.currentBuildOk then ⟨some ["latest"], 0, ["latest"]⟩
      else ⟨none, 1, ["latest"]⟩

/-- Variant B (second `generate-docs.ts` script): no `--branch`; with a
spec that matches tags it builds only those tags and writes exactly
`tags`; with no match it falls back to building the current workspace
and writes `["current"]`. -/
def mainB (env : MainEnv) : RunResult :=
  let s := rawSpec env
  if s ≠ "" then
    let tags := resolveTagsFromSpec s env.gitTags
    if !tags.isEmpty then
      let r := buildTags env.tagBuildOk tags
      if r.1 then ⟨some tags, 0, r.2⟩ else ⟨none, 1, r.2⟩
    else
      if env.currentBuildOk then ⟨some ["current"], 0, ["current"]⟩
      else ⟨none, 1, ["current"]⟩
  else
    if env.currentBuildOk then ⟨some ["current"], 0, ["current"]⟩
    else ⟨none, 1, ["current"]⟩

/-- Variant C (first unnamed revision): `--branch` optional and unused;
with a spec, aborts when no tag matches, builds each tag, then the
current workspace, and writes `["current", ...tags]`. -/
def mainC (env : MainEnv) : RunResult :=
  let s := rawSpec env
  if s ≠ "" then
    let tags := resolveTagsFromSpec s env.gitTags
    if tags.isEmpty then ⟨none, 1, []⟩
    else
      let r := buildTags env.tagBuildOk tags
      if r.1 then
        if env.currentBuildOk then
          ⟨some ("current" :: tags), 0, r.2 ++ ["current"]⟩
        else ⟨none, 1, r.2 ++ ["current"]⟩
      else ⟨none, 1, r.2⟩
  else
    if env.currentBuildOk then ⟨some ["current"], 0, ["current"]⟩
    else ⟨none, 1, ["current"]⟩

/-- Variant D (second unnamed revision): requires `--branch`; otherwise
the same run shape as variant C, with the current build going through
`buildBranch` when on the default branch. -/
def mainD (env : MainEnv) : RunResult :=
  match cliBranch env with
  | none => ⟨none, 1, []⟩
  | some _ =>
    let s := rawSpec env
    if s ≠ "" then
      let tags := resolveTagsFromSpec s env.gitTags
      if tags.isEmpty then ⟨none, 1, []⟩
      else
        let r := buildTags env.tagBuildOk tags
        if r.1 then
          if env.currentBuildOk then
            ⟨some ("current" :: tags), 0, r.2 ++ ["current"]⟩
          else ⟨none, 1, r.2 ++ ["current"]⟩
        else ⟨none, 1, r.2⟩
    else
      if env.currentBuildOk then ⟨some ["current"], 0, ["current"]⟩
      else ⟨none, 1, ["current"]⟩

/-! ### Supporting lemmas -/

theorem mem_resolveTagsFromSpec {spec : String} {allTags : List String}
    {t : String} :
    t ∈ resolveTagsFromSpec spec allTags ↔
      t ∈ allTags ∧ semverValid t = true ∧
        ∃ tok ∈ specTokens spec, satisfies t tok true = true := by
  unfold resolveTagsFromSpec
  rw [List.mem_insertionSort]
  simp only [List.mem_filter, List.any_eq_true, and_assoc]

theorem tagDescLe_iff {a b : String} :
    tagDescLe a b ↔ cmpSemVer (parseD a) (parseD b) ≠ .lt := by
  unfold tagDescLe rcompareTag
  constructor
  · intro h hlt
    exact h (CmpLaws.cmpSemVer_laws.gt_of_swap_lt hlt)
  · intro h hgt
    exact h (CmpLaws.cmpSemVer_laws.lt_of_swap_gt hgt)

theorem cliSpecA_eq_some {env : MainEnv} {s : String}
    (hraw : rawSpec env = s) (hs : s ≠ "") : cliSpecA env = some s := by
  cases h : env.versionsArg with
  | none =>
    simp only [rawSpec, h] at hraw
    exact absurd hraw.symm hs
  | some v =>
    simp only [rawSpec, h] at hraw
    simp [cliSpecA, h, hraw, hs]

theorem buildTags_fst {ok : String → Bool} :
    ∀ tags : List String, (buildTags ok tags).1 = tags.all ok := by
  intro tags
  induction tags with
  | nil => rfl
  | cons t ts ih =>
    simp only [buildTags, List.all_cons]
    cases h : ok t
    · simp
    · simp [ih]

theorem buildTags_of_all_ok {ok : String → Bool} :
    ∀ {tags : List String}, tags.all ok = true → buildTags ok tags = (true, tags) := by
  intro tags
  induction tags with
  | nil => intro _; rfl
  | cons t ts ih =>
    intro h
    rw [List.all_cons, Bool.and_eq_true] at h
    simp only [buildTags, h.1, if_true, ih h.2]

theorem buildTags_of_fail {ok : String → Bool} :
    ∀ {tags : List String}, tags.all ok = false →
      buildTags ok tags =
        (false, tags.takeWhile ok ++ [(tags.dropWhile ok).headI]) := by
  intro tags
  induction tags with
  | nil => intro h; simp at h
  | cons t ts ih =>
    intro h
    rw [List.all_cons] at h
    cases ht : ok t with
    | false =>
      simp only [buildTags, ht, if_false, List.takeWhile_cons, List.dropWhile_cons,
        Bool.false_eq_true, List.nil_append, List.headI]
    | true =>
      rw [ht] at h
      simp only [Bool.true_and] at h
      simp only [buildTags, ht, if_true, ih h, List.takeWhile_cons,
        List.dropWhile_cons, List.cons_append]

theorem sanitizeAux_safe :
    ∀ (l : List Char) (b : Bool), (sanitizeAux b l).all isSafeChar = true := by
  intro l
  induction l with
  | nil => intro b; rfl
  | cons c rest ih =>
    intro b
    simp only [sanitizeAux]
    cases h : isSafeChar c
    · cases b
      · simp only [Bool.false_eq_true, if_false, if_true, List.all_cons, ih]
        simp [isSafeChar, isDigitC]
      · simp only [Bool.false_eq_true, if_false, if_true, ih]
    · simp only [if_true, List.all_cons, h, Bool.true_and, ih]

theorem sanitizeChars_safe (l : List Char) :
    (sanitizeChars l).all isSafeChar = true :=
  sanitizeAux_safe l false

/-! ### Claim theorems -/

/-- C3: for every spec string and tag list, `resolveTagsFromSpec` returns
only tags that are valid semantic versions and that satisfy at least one
comma-separated token of the spec under `includePrerelease` range
satisfaction; moreover a pre-release tag inside a requested range is
matched, not dropped (witnessed by `v2.0.0-beta.1` against
`>=1.0.0`). -/
theorem resolveTags_sound (spec : String) (allTags : List String) :
    (∀ t ∈ resolveTagsFromSpec spec allTags,
      semverValid t = true ∧
        ∃ tok ∈ specTokens spec, satisfies t tok true = true)
    ∧ "v2.0.0-beta.1" ∈ resolveTagsFromSpec ">=1.0.0" ["v1.0.0", "v2.0.0-beta.1"] := by
  constructor
  · intro t ht
    have h := mem_resolveTagsFromSpec.mp ht
    exact ⟨h.2.1, h.2.2⟩
  · decide

/-- C6: for every spec string and tag list, the list returned by
`resolveTagsFromSpec` is sorted descending by semantic-version
precedence — for any two tags in the returned list, the earlier one is
not less than the later one; on the specification's own scenario the
matcher returns `["v2.0.0-beta.1", "v1.2.0", "v1.0.0"]`. -/
theorem resolveTags_sorted_descending (spec : String) (allTags : List String) :
    (resolveTagsFromSpec spec allTags).Pairwise
      (fun a b => cmpSemVer (parseD a) (parseD b) ≠ .lt)
    ∧ resolveTagsFromSpec ">=1.0.0" ["v1.0.0", "v1.2.0", "v2.0.0-beta.1"] =
        ["v2.0.0-beta.1", "v1.2.0", "v1.0.0"] := by
  constructor
  · have hs : (resolveTagsFromSpec spec allTags).Pairwise tagDescLe := by
      unfold resolveTagsFromSpec
      exact List.sorted_insertionSort tagDescLe _
    exact hs.imp (fun h => tagDescLe_iff.mp h)
  · decide

/-- C8: for every tag list, a spec that tokenizes to zero tokens (the
empty string, a whitespace-only string, or any comma/whitespace-only
string) makes `resolveTagsFromSpec` return the empty list; the matcher
is a total function and throws nothing. -/
theorem resolveTags_empty_spec (spec : String) (allTags : List String)
    (h : specTokens spec = []) : resolveTagsFromSpec spec allTags = [] := by
  unfold resolveTagsFromSpec
  rw [h]
  simp

/-- Witness for C8 at the whitespace-only spec of the specification. -/
theorem resolveTags_empty_spec_witness :
    specTokens "   " = [] ∧
      resolveTagsFromSpec "   " ["v1.0.0", "v2.0.0"] = [] :=
  ⟨by decide, resolveTags_empty_spec "   " ["v1.0.0", "v2.0.0"] (by decide)⟩

/-- C10: when the three preconditions hold and the external content
build command succeeds but the `.content-collections` artifact directory
is absent, `buildDocs` throws the build-output-missing error with the
output directory already reset: its prior contents are destroyed and it
is left existing but empty. -/
theorem buildDocs_output_missing_after_reset (o : DocsOracle)
    (hsrc : o.sourceExists = true) (hcont : o.contentExists = true)
    (hpkg : o.packageJsonExists = true) (hcmd : o.buildCmdOk = true)
    (hcc : o.ccSrcExists = false) :
    buildDocsRun o = (some DocsErr.buildOutputMissing, OutDirState.emptyDir) := by
  simp [buildDocsRun, hsrc, hcont, hpkg, hcmd, hcc]

/-- Witness for C10: all preconditions hold, the build command succeeds,
the artifact directory is missing. -/
theorem buildDocs_output_missing_after_reset_witness :
    buildDocsRun ⟨true, true, true, true, false⟩ =
      (some DocsErr.buildOutputMissing, OutDirState.emptyDir) :=
  buildDocs_output_missing_after_reset ⟨true, true, true, true, false⟩
    rfl rfl rfl rfl rfl

/-- C2 counterexample: when the try body completes normally (worktree
added, no root package so no install, docs build succeeds) but the
`git worktree remove` in the cleanup block fails, `run` throws, the
`rmSync` of the temporary parent is never reached, and `buildRef` exits
by throwing with both the worktree checkout and its temporary parent
still on disk — contradicting the claim that they no longer exist after
`buildRef` returns or throws. -/
theorem worktree_survives_failed_cleanup :
    (buildRefRun ⟨true, false, true, true, false⟩ "v1.0.0").thrown =
      some RefErr.cmdWorktreeRemove
    ∧ (buildRefRun ⟨true, false, true, true, false⟩ "v1.0.0").state.worktreeExists = true
    ∧ (buildRefRun ⟨true, false, true, true, false⟩ "v1.0.0").state.tmpBaseExists = true := by
  refine ⟨rfl, rfl, rfl⟩

/-- C2 (amended): on every exit path on which the worktree was created —
normal completion, dependency-install failure, or build failure —
provided the `git worktree remove` command in the cleanup block
succeeds, the temporary worktree checkout and its temporary parent
directory no longer exist after `buildRef` returns or throws. -/
theorem buildRef_cleanup (o : WtOracle) (label : String)
    (hadd : o.addOk = true) (hrem : o.removeOk = true) :
    (buildRefRun o label).state.worktreeExists = false
    ∧ (buildRefRun o label).state.tmpBaseExists = false := by
  simp [buildRefRun, hadd, hrem]

/-- Witness for C2 (amended): dependency install fails, cleanup
succeeds; both temporaries are gone. -/
theorem buildRef_cleanup_witness :
    (buildRefRun ⟨true, true, false, true, true⟩ "v1.0.0").state.worktreeExists = false
    ∧ (buildRefRun ⟨true, true, false, true, true⟩ "v1.0.0").state.tmpBaseExists = false :=
  buildRef_cleanup ⟨true, true, false, true, true⟩ "v1.0.0" rfl rfl

/-- C4 counterexample: the docs build fails and the `git worktree
remove` in the cleanup block also fails; the error `buildRef` reports is
the cleanup failure, which replaced the original build failure — nothing
is logged, contradicting the claim that a cleanup error is logged rather
than thrown. -/
theorem cleanup_error_masks_build_error :
    (buildRefRun ⟨true, false, true, false, false⟩ "v1.0.0").thrown =
      some RefErr.cmdWorktreeRemove
    ∧ some RefErr.cmdWorktreeRemove ≠ some RefErr.docsBuild := by
  refine ⟨rfl, by decide⟩

/-- C4 (amended): worktree cleanup is attempted unconditionally on every
exit path from the try body; when the `git worktree remove` command
succeeds the original body outcome (install failure, build failure, or
success) is exactly what `buildRef` reports and both temporaries are
removed, but when that command fails its error is thrown and replaces
the original build failure as the error reported to the caller. -/
theorem buildRef_error_reporting (o : WtOracle) (label : String)
    (hadd : o.addOk = true) :
    (o.removeOk = true →
      (buildRefRun o label).thrown =
        (if o.rootPkg && !o.installOk then some RefErr.cmdInstall
         else if !o.buildOk then some RefErr.docsBuild
         else none)
      ∧ (buildRefRun o label).state = ⟨false, false⟩)
    ∧ (o.removeOk = false →
      (buildRefRun o label).thrown = some RefErr.cmdWorktreeRemove) := by
  constructor
  · intro hrem
    constructor
    · simp [buildRefRun, hadd, hrem]
    · simp [buildRefRun, hadd, hrem]
  · intro hrem
    simp [buildRefRun, hadd, hrem]

/-- Witness for C4 (amended): build failure with successful cleanup —
the reported error is the original build failure. -/
theorem buildRef_error_reporting_witness :
    ((true : Bool) = true →
      (buildRefRun ⟨true, false, true, false, true⟩ "v1.0.0").thrown =
        (if false && !true then some RefErr.cmdInstall
         else if !false then some RefErr.docsBuild
         else none)
      ∧ (buildRefRun ⟨true, false, true, false, true⟩ "v1.0.0").state = ⟨false, false⟩)
    ∧ ((true : Bool) = false →
      (buildRefRun ⟨true, false, true, false, true⟩ "v1.0.0").thrown =
        some RefErr.cmdWorktreeRemove) :=
  buildRef_error_reporting ⟨true, false, true, false, true⟩ "v1.0.0" rfl

/-- An environment exercising variant C with a build-metadata tag: the
tag `1.0.0+build` is a valid semver, matches the exact token `1.0.0`
(build metadata is ignored by precedence comparison), and reaches
`buildTag` / the manifest under its raw name. -/
def envPlusBuild : MainEnv :=
  { gitTags := ["1.0.0+build"], versionsArg := some "1.0.0",
    branchArg := some "main", onDefaultBranch := true,
    tagBuildOk := fun _ => true, currentBuildOk := true }

/-- C7 counterexample: for the reachable label `1.0.0+build` (the `+` is
outside the safe set `[\w.-]`), the sanitized label `1.0.0_build`
differs from the raw label, yet `buildRef` uses the raw label — not the
sanitized one — both as the output subdirectory name and (via the tag
list) as the manifest entry; the sanitized label names only the
temporary worktree directory. -/
theorem sanitized_label_not_used_for_output :
    sanitizeLabel "1.0.0+build" = "1.0.0_build"
    ∧ ("1.0.0_build" : String) ≠ "1.0.0+build"
    ∧ (buildRefRun ⟨true, true, true, true, true⟩ "1.0.0+build").worktreeDirName =
        "1.0.0_build"
    ∧ (buildRefRun ⟨true, true, true, true, true⟩ "1.0.0+build").outDirLabel =
        "1.0.0+build"
    ∧ resolveTagsFromSpec "1.0.0" ["1.0.0+build"] = ["1.0.0+build"]
    ∧ (mainC envPlusBuild).manifest = some ["current", "1.0.0+build"] := by
  refine ⟨by decide, by decide, by decide, by decide, by decide, by decide⟩

/-- C7 (amended): for every label used in a ref-based build, the
filesystem-safe label obtained by replacing every run of characters
outside the safe set (word characters, dot, hyphen) with an underscore
is used as the temporary worktree directory name — its characters all
lie in the safe set — while the output subdirectory name and the
manifest entry use the original, unsanitized label. -/
theorem safe_label_usage (o : WtOracle) (label : String) :
    (buildRefRun o label).worktreeDirName = sanitizeLabel label
    ∧ (buildRefRun o label).outDirLabel = label
    ∧ (sanitizeLabel label).data.all isSafeChar = true := by
  refine ⟨?_, ?_, ?_⟩
  · unfold buildRefRun
    cases h : o.addOk <;> cases h2 : o.removeOk <;> simp
  · unfold buildRefRun
    cases h : o.addOk <;> cases h2 : o.removeOk <;> simp
  · unfold sanitizeLabel
    exact sanitizeChars_safe label.data

/-- Environment for the C1 counterexample: variant B invoked with
`--versions "1.0.0"` against the tag list `["1.0.0"]`, every build
succeeding. -/
def envOneTag : MainEnv :=
  { gitTags := ["1.0.0"], versionsArg := some "1.0.0", branchArg := none,
    onDefaultBranch := true, tagBuildOk := fun _ => true,
    currentBuildOk := true }

/-- C1 counterexample: in the second `generate-docs.ts` variant, when
the spec matches a tag and every build succeeds, the written manifest is
exactly the matched tags — the current/latest label is not listed first;
it is absent altogether. -/
theorem mainB_manifest_lacks_current_label :
    (mainB envOneTag).manifest = some ["1.0.0"]
    ∧ (mainB envOneTag).exitCode = 0
    ∧ ("1.0.0" : String) ≠ "latest"
    ∧ ("1.0.0" : String) ≠ "current" := by
  refine ⟨by decide, by decide, by decide, by decide⟩

/-- C1 (amended): when the `--versions` spec matches at least one tag
and every per-version build succeeds, variant A writes the manifest
`["latest", ...tags]` and variants C and D write
`["current", ...tags]` — the current/latest label first, followed by
the matched tags in the descending order produced by the matcher —
while variant B (the second `generate-docs.ts` script) writes exactly
the matched tags in matcher order, with no current/latest entry. -/
theorem manifest_order (env : MainEnv) (s : String)
    (hraw : rawSpec env = s) (hs : s ≠ "")
    (hbr : cliBranch env ≠ none)
    (hne : resolveTagsFromSpec s env.gitTags ≠ [])
    (hok : (resolveTagsFromSpec s env.gitTags).all env.tagBuildOk = true)
    (hcur : env.currentBuildOk = true) :
    (mainA env).manifest = some ("latest" :: resolveTagsFromSpec s env.gitTags)
    ∧ (mainB env).manifest = some (resolveTagsFromSpec s env.gitTags)
    ∧ (mainC env).manifest = some ("current" :: resolveTagsFromSpec s env.gitTags)
    ∧ (mainD env).manifest = some ("current" :: resolveTagsFromSpec s env.gitTags) := by
  obtain ⟨b, hb⟩ := Option.ne_none_iff_exists'.mp hbr
  have hne' : (resolveTagsFromSpec s env.gitTags).isEmpty = false := by
    simpa using hne
  refine ⟨?_, ?_, ?_, ?_⟩
  · simp [mainA, hb, cliSpecA_eq_some hraw hs, hne', buildTags_of_all_ok hok, hcur]
  · simp [mainB, hraw, hs, hne', buildTags_of_all_ok hok]
  · simp [mainC, hraw, hs, hne', buildTags_of_all_ok hok, hcur]
  · simp [mainD, hb, hraw, hs, hne', buildTags_of_all_ok hok, hcur]

/-- Witness for C1 (amended): two tags match `>=1.0.0` and all builds
succeed. -/
def envTwoTags : MainEnv :=
  { gitTags := ["1.0.0", "1.1.0"], versionsArg := some ">=1.0.0",
    branchArg := some "main", onDefaultBranch := true,
    tagBuildOk := fun _ => true, currentBuildOk := true }

theorem manifest_order_witness :
    (mainA envTwoTags).manifest =
      some ("latest" :: resolveTagsFromSpec ">=1.0.0" envTwoTags.gitTags)
    ∧ (mainB envTwoTags).manifest =
      some (resolveTagsFromSpec ">=1.0.0" envTwoTags.gitTags)
    ∧ (mainC envTwoTags).manifest =
      some ("current" :: resolveTagsFromSpec ">=1.0.0" envTwoTags.gitTags)
    ∧ (mainD envTwoTags).manifest =
      some ("current" :: resolveTagsFromSpec ">=1.0.0" envTwoTags.gitTags) :=
  manifest_order envTwoTags ">=1.0.0" (by decide) (by decide) (by decide)
    (by decide) (by decide) rfl

/-- C5: when the `--versions` spec is non-empty but matches zero valid
tags, variants A, C and D abort with a no-tags-matched error (exit code
1, no manifest written), while variant B falls back to building only the
current workspace and writes `["current"]` when that build succeeds;
in no case does any variant write a manifest listing a tag that was not
matched (variant B's manifest on this path can only contain
`"current"`). -/
theorem no_match_policy (env : MainEnv) (s : String)
    (hraw : rawSpec env = s) (hs : s ≠ "")
    (hzero : resolveTagsFromSpec s env.gitTags = []) :
    ((mainA env).manifest = none ∧ (mainA env).exitCode = 1)
    ∧ ((mainC env).manifest = none ∧ (mainC env).exitCode = 1)
    ∧ ((mainD env).manifest = none ∧ (mainD env).exitCode = 1)
    ∧ ((mainB env).manifest =
        if env.currentBuildOk then some ["current"] else none)
    ∧ (∀ l, (mainB env).manifest = some l → ∀ t ∈ l, t = "current") := by
  have hz' : (resolveTagsFromSpec s env.gitTags).isEmpty = true := by
    simp [hzero]
  have hB : (mainB env).manifest =
      if env.currentBuildOk then some ["current"] else none := by
    cases hc : env.currentBuildOk <;>
      simp [mainB, hraw, hs, hz', hc]
  refine ⟨?_, ?_, ?_, hB, ?_⟩
  · cases hb : cliBranch env with
    | none => simp [mainA, hb]
    | some b => simp [mainA, hb, cliSpecA_eq_some hraw hs, hz']
  · simp [mainC, hraw, hs, hz']
  · cases hb : cliBranch env with
    | none => simp [mainD, hb]
    | some b => simp [mainD, hb, hraw, hs, hz']
  · intro l hl t ht
    rw [hB] at hl
    cases hc : env.currentBuildOk <;> rw [hc] at hl <;> simp at hl
    subst hl
    simpa using ht

/-- Witness for C5: spec `v9.9.9` against a tag list with no such
tag. -/
def envNoMatch : MainEnv :=
  { gitTags := ["1.0.0"], versionsArg := some "v9.9.9",
    branchArg := some "main", onDefaultBranch := true,
    tagBuildOk := fun _ => true, currentBuildOk := true }

theorem no_match_policy_witness :
    ((mainA envNoMatch).manifest = none ∧ (mainA envNoMatch).exitCode = 1)
    ∧ ((mainC envNoMatch).manifest = none ∧ (mainC envNoMatch).exitCode = 1)
    ∧ ((mainD envNoMatch).manifest = none ∧ (mainD envNoMatch).exitCode = 1)
    ∧ ((mainB envNoMatch).manifest =
        if envNoMatch.currentBuildOk then some ["current"] else none)
    ∧ (∀ l, (mainB envNoMatch).manifest = some l → ∀ t ∈ l, t = "current") :=
  no_match_policy envNoMatch "v9.9.9" (by decide) (by decide) (by decide)

/-- C9: when any single version's build fails — a tag build, or the
current/latest build once all tags built — every variant exits with
code 1 and writes no manifest; the list of builds that were started
stops at the first failure (the tags before the failing one, then the
failing one; nothing after it is attempted, and the current/latest
label is only attempted when every tag succeeded). Variants A and D
are the cited sources; variant C behaves identically, and variant B's
tag loop (its only multi-version path) obeys the same discipline. -/
theorem single_failure_aborts (env : MainEnv) (s : String)
    (hraw : rawSpec env = s) (hs : s ≠ "")
    (hbr : cliBranch env ≠ none)
    (hne : resolveTagsFromSpec s env.gitTags ≠ [])
    (hfail : ¬((resolveTagsFromSpec s env.gitTags).all env.tagBuildOk = true
        ∧ env.currentBuildOk = true)) :
    ((mainA env).exitCode = 1 ∧ (mainA env).manifest = none
      ∧ (mainA env).attempted =
        (if (resolveTagsFromSpec s env.gitTags).all env.tagBuildOk then
          resolveTagsFromSpec s env.gitTags ++ ["latest"]
        else
          (resolveTagsFromSpec s env.gitTags).takeWhile env.tagBuildOk ++
            [((resolveTagsFromSpec s env.gitTags).dropWhile env.tagBuildOk).headI]))
    ∧ ((mainC env).exitCode = 1 ∧ (mainC env).manifest = none
      ∧ (mainC env).attempted =
        (if (resolveTagsFromSpec s env.gitTags).all env.tagBuildOk then
          resolveTagsFromSpec s env.gitTags ++ ["current"]
        else
          (resolveTagsFromSpec s env.gitTags).takeWhile env.tagBuildOk ++
            [((resolveTagsFromSpec s env.gitTags).dropWhile env.tagBuildOk).headI]))
    ∧ ((mainD env).exitCode = 1 ∧ (mainD env).manifest = none
      ∧ (mainD env).attempted =
        (if (resolveTagsFromSpec s env.gitTags).all env.tagBuildOk then
          resolveTagsFromSpec s env.gitTags ++ ["current"]
        else
          (resolveTagsFromSpec s env.gitTags).takeWhile env.tagBuildOk ++
            [((resolveTagsFromSpec s env.gitTags).dropWhile env.tagBuildOk).headI]))
    ∧ ((resolveTagsFromSpec s env.gitTags).all env.tagBuildOk = false →
        (mainB env).exitCode = 1 ∧ (mainB env).manifest = none
        ∧ (mainB env).attempted =
          (resolveTagsFromSpec s env.gitTags).takeWhile env.tagBuildOk ++
            [((resolveTagsFromSpec s env.gitTags).dropWhile env.tagBuildOk).headI]) := by
  obtain ⟨b, hb⟩ := Option.ne_none_iff_exists'.mp hbr
  have hne' : (resolveTagsFromSpec s env.gitTags).isEmpty = false := by
    simpa using hne
  cases hall : (resolveTagsFromSpec s env.gitTags).all env.tagBuildOk with
  | true =>
    have hcur : env.currentBuildOk = false := by
      cases hc : env.currentBuildOk
      · rfl
      · exact absurd ⟨hall, hc⟩ hfail
    refine ⟨?_, ?_, ?_, ?_⟩
    · simp [mainA, hb, cliSpecA_eq_some hraw hs, hne',
        buildTags_of_all_ok hall, hall, hcur]
    · simp [mainC, hraw, hs, hne', buildTags_of_all_ok hall, hall, hcur]
    · simp [mainD, hb, hraw, hs, hne', buildTags_of_all_ok hall, hall, hcur]
    · intro hcontra
      exact absurd hcontra (by simp)
  | false =>
    refine ⟨?_, ?_, ?_, ?_⟩
    · simp [mainA, hb, cliSpecA_eq_some hraw hs, hne',
        buildTags_of_fail hall, hall]
    · simp [mainC, hraw, hs, hne', buildTags_of_fail hall, hall]
    · simp [mainD, hb, hraw, hs, hne', buildTags_of_fail hall, hall]
    · intro _
      refine ⟨?_, ?_, ?_⟩ <;>
        simp [mainB, hraw, hs, hne', buildTags_of_fail hall]

/-- Witness environment for C9: of the two matched tags (descending:
`1.1.0` then `1.0.0`), the first builds and the second fails. -/
def envTagFails : MainEnv :=
  { gitTags := ["1.0.0", "1.1.0"], versionsArg := some ">=1.0.0",
    branchArg := some "main", onDefaultBranch := true,
    tagBuildOk := fun t => t == "1.1.0", currentBuildOk := true }

theorem single_failure_aborts_witness :
    ((mainA envTagFails).exitCode = 1 ∧ (mainA envTagFails).manifest = none
      ∧ (mainA envTagFails).attempted =
        (if (resolveTagsFromSpec ">=1.0.0" envTagFails.gitTags).all envTagFails.tagBuildOk then
          resolveTagsFromSpec ">=1.0.0" envTagFails.gitTags ++ ["latest"]
        else
          (resolveTagsFromSpec ">=1.0.0" envTagFails.gitTags).takeWhile envTagFails.tagBuildOk ++
            [((resolveTagsFromSpec ">=1.0.0" envTagFails.gitTags).dropWhile envTagFails.tagBuildOk).headI]))
    ∧ ((mainC envTagFails).exitCode = 1 ∧ (mainC envTagFails).manifest = none
      ∧ (mainC envTagFails).attempted =
        (if (resolveTagsFromSpec ">=1.0.0" envTagFails.gitTags).all envTagFails.tagBuildOk then
          resolveTagsFromSpec ">=1.0.0" envTagFails.gitTags ++ ["current"]
        else
          (resolveTagsFromSpec ">=1.0.0" envTagFails.gitTags).takeWhile envTagFails.tagBuildOk ++
            [((resolveTagsFromSpec ">=1.0.0" envTagFails.gitTags).dropWhile envTagFails.tagBuildOk).headI]))
    ∧ ((mainD envTagFails).exitCode = 1 ∧ (mainD envTagFails).manifest = none
      ∧ (mainD envTagFails).attempted =
        (if (resolveTagsFromSpec ">=1.0.0" envTagFails.gitTags).all envTagFails.tagBuildOk then
          resolveTagsFromSpec ">=1.0.0" envTagFails.gitTags ++ ["current"]
        else
          (resolveTagsFromSpec ">=1.0.0" envTagFails.gitTags).takeWhile envTagFails.tagBuildOk ++
            [((resolveTagsFromSpec ">=1.0.0" envTagFails.gitTags).dropWhile envTagFails.tagBuildOk).headI]))
    ∧ ((resolveTagsFromSpec ">=1.0.0" envTagFails.gitTags).all envTagFails.tagBuildOk = false →
        (mainB envTagFails).exitCode = 1 ∧ (mainB envTagFails).manifest = none
        ∧ (mainB envTagFails).attempted =
          (resolveTagsFromSpec ">=1.0.0" envTagFails.gitTags).takeWhile envTagFails.tagBuildOk ++
            [((resolveTagsFromSpec ">=1.0.0" envTagFails.gitTags).dropWhile envTagFails.tagBuildOk).headI]) :=
  single_failure_aborts envTagFails ">=1.0.0" (by decide) (by decide)
    (by decide) (by decide) (by decide)

end DocsGen
